import Mathlib

/-!
Shallow embedding of the Oregon Scientific V3 THGN801 sensor emulator
(`oregon-thgn801.ino`). Payload bytes are modelled as natural numbers below
256 held in a `List Nat`; out-of-range list accesses return 0 via `List.getD`
(raw memory reads past a buffer are modelled separately with `Nat → Nat`
where the source actually performs them). 8-bit machine arithmetic is made
explicit with `% 256`, 32-bit with `% U32`.
-/

namespace Thgn801

/-- Modulus of a 32-bit unsigned counter (`uint32_t`). -/
def U32 : Nat := 4294967296

/-- Unsigned 32-bit subtraction `a - b` as performed on `uint32_t` values. -/
def sub32 (a b : Nat) : Nat := (a % U32 + (U32 - b % U32)) % U32

/-- High nibble of a byte, `b >> 4` on a `uint8_t`. -/
def hiN (b : Nat) : Nat := b / 16 % 16

/-- Low nibble of a byte, `b & 0x0F`. -/
def loN (b : Nat) : Nat := b % 16

/-- Swap the two nibbles of a byte: `((b & 0x0F) << 4) | ((b & 0xF0) >> 4)`. -/
def nibbleSwap (b : Nat) : Nat := loN b * 16 + hiN b

/-- Nibble of a payload at nibble index `i`: high nibble of byte `i/2` when
`i` is even, low nibble when `i` is odd — exactly the access pattern
`payload[i/2] >> 4` / `payload[i/2] & 0x0F` used by `crc8_checksum_v3`. -/
def nibAt (payload : List Nat) (i : Nat) : Nat :=
  if i % 2 == 0 then hiN (payload.getD (i / 2) 0) else loN (payload.getD (i / 2) 0)

/-- One shift-and-conditional-XOR round of the bitwise CRC-8:
`crc = (crc & 0x80) ? (crc << 1) ^ 0x07 : crc << 1` on a `uint8_t`. -/
def crc8Round (crc : Nat) : Nat :=
  if crc % 256 ≥ 128 then (crc % 256 * 2) % 256 ^^^ 0x07 else (crc % 256 * 2) % 256

/-- Four CRC-8 rounds, one per bit of a nibble (the inner `for j` loop). -/
def crc8Rounds4 (crc : Nat) : Nat := crc8Round (crc8Round (crc8Round (crc8Round crc)))

/-- Embedding of `crc8_checksum_v3(payload, payloadNibbles)`: iterate nibble
indices `i = 7 .. payloadNibbles + 7` inclusive; for `i < payloadNibbles + 7`
XOR in the nibble at index `i` before the 4 rounds, and run the final
iteration (`i = payloadNibbles + 7`) with the 4 rounds only; finally swap
the nibbles of the result. -/
def crc8_checksum_v3 (payload : List Nat) (payloadNibbles : Nat) : Nat :=
  nibbleSwap ((List.range' 7 (payloadNibbles + 1)).foldl
    (fun crc i =>
      crc8Rounds4 (if i < payloadNibbles + 7 then crc ^^^ nibAt payload i else crc))
    0x00)

/-- Embedding of `oregon_checksum_v3(payload, payloadNibbles)`: seed with
`payload[3] & 0xF`, add both nibbles of bytes `4 .. (28 + 4n)/8 - 1`
(accumulating in a `uint8_t`, hence `% 256`), add the high nibble of byte
`(28 + 4n)/8` exactly when `payloadNibbles` is even, and swap the nibbles of
the result. -/
def oregon_checksum_v3 (payload : List Nat) (payloadNibbles : Nat) : Nat :=
  let bound := (28 + payloadNibbles * 4) / 8
  let s := (List.range' 4 (bound - 4)).foldl
    (fun acc i => (acc + hiN (payload.getD i 0) + loN (payload.getD i 0)) % 256)
    (loN (payload.getD 3 0))
  nibbleSwap (if payloadNibbles % 2 == 0 then (s + hiN (payload.getD bound 0)) % 256 else s)

/-- The simple checksum as the spec words it, with the odd/even condition the
spec states: the high nibble of the byte following the summed region is
added precisely when `count` is ODD. Kept separate from the source embedding
`oregon_checksum_v3` so the two can be compared. -/
def simpleChecksumClaimed (payload : List Nat) (count : Nat) : Nat :=
  let bound := (28 + count * 4) / 8
  let tot := loN (payload.getD 3 0)
    + ((List.range' 4 (bound - 4)).map
        (fun i => hiN (payload.getD i 0) + loN (payload.getD i 0))).sum
    + (if count % 2 == 1 then hiN (payload.getD bound 0) else 0)
  nibbleSwap (tot % 256)

/-- The simple checksum with the spec's odd/even condition flipped to match
the source: the extra high nibble is added precisely when `count` is EVEN. -/
def simpleChecksumAmended (payload : List Nat) (count : Nat) : Nat :=
  let bound := (28 + count * 4) / 8
  let tot := loN (payload.getD 3 0)
    + ((List.range' 4 (bound - 4)).map
        (fun i => hiN (payload.getD i 0) + loN (payload.getD i 0))).sum
    + (if count % 2 == 0 then hiN (payload.getD bound 0) else 0)
  nibbleSwap (tot % 256)

/-- The CRC-8 as the spec words it: a data phase XOR-ing in the nibbles at
indices `7 .. count+6` (4 rounds each), then one trailing flush pass of 4
rounds with no XOR-in, then a nibble swap. -/
def crc8Claimed (payload : List Nat) (count : Nat) : Nat :=
  nibbleSwap (crc8Rounds4
    ((List.range' 7 count).foldl
      (fun crc i => crc8Rounds4 (crc ^^^ nibAt payload i)) 0x00))

def V3_CHANNEL : Nat := 1
def V3_PAYLOAD_NIBBLES : Nat := 15
def V3_TX_BYTES : Nat := 13
def V3_PULSE_LENGHT_US : Nat := 488

/-- Payload bytes of `payload_thgn801` before the two checksum bytes are
filled in. The temperature is passed as `tempDeci`, an integer number of
tenths of a degree: the source computes `t10 = abs(tempC * 10.001)`
truncated to `uint16_t`, which for a temperature that is an exact multiple
of 0.1 °C with at most 3 digits equals `tempDeci.natAbs` (the `.001` bias
exists precisely to make float truncation land on that integer), and the
sign test `tempC < 0.0` equals `tempDeci < 0`. `hum` is a `uint8_t`,
hence `% 256`. -/
def payload_pre (rollingCode : Nat) (tempDeci : Int) (hum : Nat) : List Nat :=
  let t10 : Nat := tempDeci.natAbs % 65536
  let h : Nat := hum % 256
  [0xFF, 0xFF, 0xFF,
   0xA0 ||| 0x0F,
   0x82,
   0x40 ||| (if V3_CHANNEL > 15 then 15 else V3_CHANNEL),
   rollingCode % 256,
   0x00 ||| (t10 % 10 &&& 0x0F),
   ((t10 / 10 % 10) <<< 4) ||| (t10 / 100 &&& 0x0F),
   (if tempDeci < 0 then 0x80 else 0x00) ||| (h % 10 &&& 0x0F),
   (h / 10 % 10) <<< 4,
   0x00, 0x00]

/-- Embedding of `payload_thgn801(rollingCode, tempC, hum)`: build the 13
bytes, store the simple checksum in byte 11, then the CRC-8 in byte 12
(computed on the buffer that already holds byte 11, as the source does). -/
def payload_thgn801 (rollingCode : Nat) (tempDeci : Int) (hum : Nat) : List Nat :=
  let p := payload_pre rollingCode tempDeci hum
  let p := p.set 11 (oregon_checksum_v3 p V3_PAYLOAD_NIBBLES)
  p.set 12 (crc8_checksum_v3 p V3_PAYLOAD_NIBBLES)

/-- Decoder for the temperature written into payload bytes 7–9: the three
BCD digits (units-of-0.1 in byte 7's low nibble, next two digits in byte 8)
with the sign taken from byte 9's high bit. -/
def decodeTempDeci (p : List Nat) : Int :=
  let t10 : Nat := loN (p.getD 7 0) + 10 * hiN (p.getD 8 0) + 100 * loN (p.getD 8 0)
  if 128 ≤ p.getD 9 0 % 256 then -(t10 : Int) else (t10 : Int)

/-- Decoder for the humidity written into payload bytes 9–10: units digit in
byte 9's low nibble, tens digit in byte 10's high nibble. -/
def decodeHum (p : List Nat) : Nat := loN (p.getD 9 0) + 10 * hiN (p.getD 10 0)

/-- Bit-mask state machine of `manchester_encode_v3`: from 0 go to 0x10,
from 0x80 jump to 0x01, otherwise shift left (on a `uint8_t`). -/
def nextBitMask (m : Nat) : Nat :=
  if m == 0 then 0x10 else if m == 0x80 then 0x01 else m <<< 1 % 256

/-- Iterate `nextBitMask` for `n` steps from state `m`, collecting the mask
used at each of the `n` bit slots. -/
def maskIter : Nat → Nat → List Nat
  | 0, _ => []
  | n + 1, m => nextBitMask m :: maskIter n (nextBitMask m)

/-- The 8 masks one call of `manchester_encode_v3` steps through. -/
def byteMasks : List Nat := maskIter 8 0

/-- The bit values transmitted for one byte, in transmission order:
`(txByte & bitMask) >= 1` at each of the 8 mask slots. -/
def encodeByte (b : Nat) : List Bool := byteMasks.map (fun m => decide (1 ≤ b &&& m))

/-- The two line levels driven for one bit cell: HIGH then LOW for a 1
(on-to-off transition), LOW then HIGH for a 0 (off-to-on transition). -/
def byteTransitions (b : Nat) : List (Bool × Bool) :=
  (encodeByte b).map (fun v => (v, !v))

/-- The transition sequence `send_data_v3` feeds to the RF line for a whole
byte sequence (one `manchester_encode_v3` call per byte, in order). -/
def transmitTransitions (bs : List Nat) : List (Bool × Bool) :=
  bs.flatMap byteTransitions

/-- Decoder for one bit cell per the protocol: on-to-off is a 1, off-to-on
is a 0 (degenerate cells decode to 0; the encoder never emits them). -/
def decodeTransition : Bool × Bool → Bool
  | (true, false) => true
  | _ => false

/-- Reassemble one byte from its 8 transmitted bits, which arrive in the
order bit 4, 5, 6, 7, 0, 1, 2, 3. -/
def bitsToByte (v4 v5 v6 v7 v0 v1 v2 v3 : Bool) : Nat :=
  cond v0 1 0 + cond v1 2 0 + cond v2 4 0 + cond v3 8 0 +
  cond v4 16 0 + cond v5 32 0 + cond v6 64 0 + cond v7 128 0

/-- Reassemble a byte sequence from a transmitted bit sequence, 8 bits per
byte; trailing fragments shorter than 8 bits are dropped. -/
def bitsToBytes : List Bool → List Nat
  | v4 :: v5 :: v6 :: v7 :: v0 :: v1 :: v2 :: v3 :: rest =>
      bitsToByte v4 v5 v6 v7 v0 v1 v2 v3 :: bitsToBytes rest
  | _ => []

/-- Full decoder for an emitted transition sequence. -/
def decodeTransitions (ts : List (Bool × Bool)) : List Nat :=
  bitsToBytes (ts.map decodeTransition)

/-- Deadline advance of `manchester_encode_v3`: `txMicros += 2 * 488` on a
`uint32_t`. -/
def advanceTxMicros (txMicros : Nat) : Nat :=
  (txMicros + V3_PULSE_LENGHT_US * 2) % U32

/-- The argument `manchester_encode_v3` passes to `delayMicroseconds` for
one bit, given the deadline `txMicros` and the current time `now` (both
`uint32_t`). The source guard `if (txMicros - micros() < 0)` compares an
UNSIGNED difference with 0, so the first branch (negation via `* -1`) is
dead and the else branch always runs. -/
def bitDelayMicros (txMicros now : Nat) : Nat :=
  if sub32 txMicros now < 0 then (U32 - sub32 txMicros now % U32) % U32
  else sub32 txMicros now

/-- Tail of `send_data_v3`: after the byte loop the index `i` equals `len`,
and the source tests `payload[i] & 0x08`, i.e. the byte ONE PAST the end of
the payload. `mem i` models the raw memory cell `payload[i]`; indices below
`len` are the payload proper, `mem len` is whatever follows it in memory.
Returns true when the extra unit-pulse LOW delay is appended. -/
def sendTailExtraLow (mem : Nat → Nat) (len : Nat) : Bool :=
  mem len % 256 &&& 0x08 == 0

/-- Modelled from the spec: the extra LOW is appended iff the FINAL byte of
the payload (index `len - 1`) has bit 3 clear — the behaviour the spec and
the source's own comment describe. -/
def sendTailExtraLowClaimed (mem : Nat → Nat) (len : Nat) : Bool :=
  mem (len - 1) % 256 &&& 0x08 == 0

/-- Scheduler state touched by the second-tick transition in `loop()`. -/
structure LoopState where
  seconds : Nat
  lastMillis : Nat
  txPending : Bool
deriving Repr, DecidableEq

/-- The second-tick transition at the top of `loop()`: when
`millis() - lastMillis > 1000` (unsigned 32-bit difference, STRICT), record
`now`, increment `seconds` (a `uint32_t`) and set `tx_pending`; otherwise
leave the state unchanged. -/
def secondTick (s : LoopState) (now : Nat) : LoopState :=
  if sub32 now s.lastMillis > 1000 then
    { seconds := (s.seconds + 1) % U32, lastMillis := now % U32, txPending := true }
  else s

/-- The DEBUG_INC reading-increment policy run after each transmission,
with the float temperature modelled exactly in integer tenths of a degree:
`t_temp += 0.1; if (t_temp > 45) t_temp = 19.0;` and
`t_hum += 1; if (t_hum > 95) t_hum = 30;` (`t_hum` is a `uint8_t`). -/
def incReadings (tempDeci : Int) (hum : Nat) : Int × Nat :=
  let t := tempDeci + 1
  let t := if t > 450 then (190 : Int) else t
  let h := (hum + 1) % 256
  let h := if h > 95 then 30 else h
  (t, h)

/-! Helper lemmas shared by the claim theorems. -/

theorem loN_lt (b : Nat) : loN b < 16 := Nat.mod_lt _ (by omega)

/-- Folding byte-wise mod-256 accumulation equals summing first and reducing
once, for a seed already below 256. -/
theorem foldl_addmod (f g : Nat → Nat) :
    ∀ (l : List Nat) (s : Nat), s < 256 →
      l.foldl (fun acc i => (acc + f i + g i) % 256) s
        = (s + (l.map (fun i => f i + g i)).sum) % 256 := by
  intro l
  induction l with
  | nil => intro s hs; simpa using (Nat.mod_eq_of_lt hs).symm
  | cons a l ih =>
    intro s hs
    simp only [List.foldl_cons, List.map_cons, List.sum_cons]
    rw [ih _ (Nat.mod_lt _ (by omega))]
    conv_rhs => rw [← Nat.mod_add_mod]
    omega

/-- On a list whose elements all lie below `bound`, the CRC fold's guard is
always taken, so it equals the unguarded fold. -/
theorem foldl_crc_ite (p : List Nat) (bound : Nat) :
    ∀ (l : List Nat), (∀ i ∈ l, i < bound) → ∀ s,
      l.foldl (fun crc i => crc8Rounds4 (if i < bound then crc ^^^ nibAt p i else crc)) s
        = l.foldl (fun crc i => crc8Rounds4 (crc ^^^ nibAt p i)) s := by
  intro l
  induction l with
  | nil => intro _ _; rfl
  | cons a l ih =>
    intro h s
    simp only [List.foldl_cons]
    rw [if_pos (h a (List.mem_cons_self a l)), ih (fun i hi => h i (List.mem_cons_of_mem a hi))]

/-! Claim theorems. -/

set_option maxRecDepth 8000 in
/-- C1: for identity = {type 0xF824, channel 1, rolling code 0x00, battery
ok} and reading = {temperature -1.5 °C (i.e. -15 tenths), humidity 20 %},
`payload_thgn801` returns exactly the 13 bytes
`FF FF FF AF 82 41 00 05 10 80 20 E2 73`: preamble `FF FF FF`, sync
nibble `A` with sensor-type nibbles `F 8 2 4`, channel nibble `1`, rolling
code `00`, battery flag `0`, BCD temperature digits of t10 = 15 LSD-first
(`5`, `1`, `0`) with the sign bit set (byte 9 = 0x80 plus humidity units
digit 0), humidity digits `0`/`2` with zero reserved nibble (byte 10 =
0x20), then the simple checksum 0xE2 and the CRC-8 0x73, each of which
equals the respective checksum recomputed over the finished payload's
15-nibble window. -/
theorem payload_thgn801_golden_vector :
    payload_thgn801 0x00 (-15) 20 =
      [0xFF, 0xFF, 0xFF, 0xAF, 0x82, 0x41, 0x00, 0x05, 0x10, 0x80, 0x20, 0xE2, 0x73] ∧
    (payload_thgn801 0x00 (-15) 20).getD 11 0 =
      oregon_checksum_v3 (payload_thgn801 0x00 (-15) 20) V3_PAYLOAD_NIBBLES ∧
    (payload_thgn801 0x00 (-15) 20).getD 12 0 =
      crc8_checksum_v3 (payload_thgn801 0x00 (-15) 20) V3_PAYLOAD_NIBBLES := by
  refine ⟨by decide, by decide, by decide⟩

/-- C2 counterexample: the claim says the high nibble of the byte following
the summed region is added precisely when the nibble count is ODD, but the
source (`if ((payloadNibbles % 2) == 0)`) adds it precisely when the count
is EVEN. On the 13-byte buffer that is zero except byte 11 = 0xF0, with the
odd count 15 actually used by the sketch, the claimed definition adds that
high nibble (result 0xF0) while the source adds nothing (result 0x00). -/
theorem oregon_checksum_claim_counterexample :
    oregon_checksum_v3 [0, 0, 0, 0, 0, 0, 0, 0, 0, 0, 0, 0xF0, 0] 15 ≠
      simpleChecksumClaimed [0, 0, 0, 0, 0, 0, 0, 0, 0, 0, 0, 0xF0, 0] 15 := by
  decide

/-- C2 amended: `oregon_checksum_v3` equals the claim's description with the
parity flipped — the extra high nibble of the following byte is added
precisely when the count is EVEN (and no extra half-byte when it is odd);
seed, summed region and the final nibble swap are as claimed. -/
theorem oregon_checksum_v3_eq_amended (p : List Nat) (c : Nat) :
    oregon_checksum_v3 p c = simpleChecksumAmended p c := by
  simp only [oregon_checksum_v3, simpleChecksumAmended]
  rw [foldl_addmod _ _ _ _ (by have := loN_lt (p.getD 3 0); omega)]
  rcases Nat.mod_two_eq_zero_or_one c with h | h <;> simp [h, Nat.mod_add_mod]

/-- C3: `crc8_checksum_v3` equals the spec's reference description: a
bitwise CRC-8 (polynomial 0x07, initial value 0) that XORs in the nibbles
at indices 7 through count+6 (4 shift rounds each), then runs one final
flush pass of 4 shift rounds with no XOR-in at index count+7, and swaps the
two nibbles of the result. -/
theorem crc8_checksum_v3_eq_claimed (p : List Nat) (c : Nat) :
    crc8_checksum_v3 p c = crc8Claimed p c := by
  simp only [crc8_checksum_v3, crc8Claimed]
  rw [List.range'_concat, List.foldl_append,
    foldl_crc_ite p (c + 7) (List.range' 7 c)
      (fun i hi => by
        obtain ⟨k, hk, rfl⟩ := List.mem_range'.1 hi
        omega)]
  simp only [List.foldl_cons, List.foldl_nil]
  rw [if_neg (by omega)]

theorem and15_eq (x : Nat) : x &&& 15 = x % 16 :=
  Nat.and_pow_two_sub_one_eq_mod x 4

theorem shl4_or_eq (a b : Nat) (ha : a < 16) (hb : b < 16) :
    (a <<< 4 ||| b) = 16 * a + b := by
  have H : ∀ x y : Fin 16, ((x : Nat) <<< 4 ||| (y : Nat)) = 16 * (x : Nat) + (y : Nat) := by
    decide
  exact H ⟨a, ha⟩ ⟨b, hb⟩

theorem or128_eq (b : Nat) (hb : b < 16) : (128 ||| b) = 128 + b := by
  have H : ∀ y : Fin 16, (128 ||| (y : Nat)) = 128 + (y : Nat) := by decide
  exact H ⟨b, hb⟩

theorem shl4_eq (a : Nat) (ha : a < 16) : a <<< 4 = 16 * a := by
  have H : ∀ x : Fin 16, ((x : Nat) <<< 4) = 16 * (x : Nat) := by decide
  exact H ⟨a, ha⟩

theorem digits_hi (u v : Nat) (hu : u ≤ 9) (hv : v ≤ 15) : (16 * u + v) / 16 % 16 = u := by
  omega

theorem digits_lo (u v : Nat) (hv : v ≤ 15) : (16 * u + v) % 16 = v := by
  omega

theorem add128_mod16 (w : Nat) (hw : w ≤ 15) : (128 + w) % 16 = w := by
  omega

theorem mul16_div (u : Nat) (hu : u ≤ 9) : 16 * u / 16 % 16 = u := by
  omega

/-- C4 counterexample: the claim's humidity domain [0, 100] is too large.
Byte 10's high nibble holds `(hum / 10) % 10`, so humidity 100 is written as
digits 0 and 0 and decodes to 0, not 100 — the round trip fails at 100. -/
theorem payload_roundtrip_counterexample :
    decodeHum (payload_thgn801 0x00 0 100) = 0 ∧
    decodeHum (payload_thgn801 0x00 0 100) ≠ 100 := by
  refine ⟨by decide, by decide⟩

/-- C4 amended: for every temperature that is a whole number of tenths in
[-99.9, 99.9] (here `t` tenths with -999 ≤ t ≤ 999) and every humidity in
[0, 99], decoding the BCD digit nibbles and the sign bit that
`payload_thgn801` writes into bytes 7–10 reconstructs the reading exactly. -/
theorem payload_roundtrip (r : Nat) (t : Int) (h : Nat)
    (ht1 : -999 ≤ t) (ht2 : t ≤ 999) (hh : h ≤ 99) :
    decodeTempDeci (payload_thgn801 r t h) = t ∧
    decodeHum (payload_thgn801 r t h) = h := by
  have hta : t.natAbs ≤ 999 := by omega
  have hta65536 : t.natAbs % 65536 = t.natAbs := Nat.mod_eq_of_lt (by omega)
  have hh256 : h % 256 = h := Nat.mod_eq_of_lt (by omega)
  have b7 : (payload_thgn801 r t h).getD 7 0
      = 0x00 ||| (t.natAbs % 65536 % 10 &&& 0x0F) := rfl
  have b8 : (payload_thgn801 r t h).getD 8 0
      = ((t.natAbs % 65536 / 10 % 10) <<< 4) ||| (t.natAbs % 65536 / 100 &&& 0x0F) := rfl
  have b9 : (payload_thgn801 r t h).getD 9 0
      = (if t < 0 then 0x80 else 0x00) ||| (h % 256 % 10 &&& 0x0F) := rfl
  have b10 : (payload_thgn801 r t h).getD 10 0 = (h % 256 / 10 % 10) <<< 4 := rfl
  rw [hta65536] at b7 b8
  rw [hh256] at b9 b10
  rw [and15_eq, Nat.zero_or] at b7
  rw [and15_eq, shl4_or_eq _ _ (by omega) (by omega)] at b8
  rw [and15_eq] at b9
  rw [shl4_eq _ (by omega)] at b10
  have hw : h % 10 % 16 ≤ 15 := by omega
  have hE : loN ((payload_thgn801 r t h).getD 7 0)
      + 10 * hiN ((payload_thgn801 r t h).getD 8 0)
      + 100 * loN ((payload_thgn801 r t h).getD 8 0) = t.natAbs := by
    rw [b7, b8]; simp only [loN, hiN]
    rw [digits_hi _ _ (by omega) (by omega), digits_lo _ _ (by omega)]
    have hf : t.natAbs / 100 % 16 = t.natAbs / 100 := by omega
    have e1 : t.natAbs % 10 % 16 % 16 = t.natAbs % 10 := by omega
    rw [hf, e1]
    omega
  constructor
  · simp only [decodeTempDeci]
    rw [hE]
    by_cases hneg : t < 0
    · rw [b9, if_pos hneg, or128_eq _ (by omega), if_pos (by omega)]
      omega
    · rw [b9, if_neg hneg, Nat.zero_or, if_neg (by omega)]
      omega
  · simp only [decodeHum]
    rw [b10]
    by_cases hneg : t < 0
    · rw [b9, if_pos hneg, or128_eq _ (by omega)]
      simp only [loN, hiN]
      rw [add128_mod16 _ hw, mul16_div _ (by omega)]
      omega
    · rw [b9, if_neg hneg, Nat.zero_or]
      simp only [loN, hiN]
      rw [mul16_div _ (by omega)]
      omega

/-- C4 witness: the amended round trip evaluated at temperature -99.9 °C
and humidity 99 %. -/
theorem payload_roundtrip_witness :
    decodeTempDeci (payload_thgn801 0x4A (-999) 99) = -999 ∧
    decodeHum (payload_thgn801 0x4A (-999) 99) = 99 :=
  payload_roundtrip 0x4A (-999) 99 (by decide) (by decide) (by decide)

/-- C5: the extra-LOW decision of `send_data_v3` is NOT taken by reading the
final payload byte. After the transmit loop the index `i` equals `len`, so
the source tests bit 3 of `payload[len]` — one byte past the end of the
payload. On the 1-byte payload `[0x08]` whose final byte has bit 3 SET (so
per the claim no extra LOW may be appended), with the memory cell after the
buffer holding 0x00, the code nevertheless appends the extra LOW, and the
claimed in-bounds decision disagrees. -/
theorem sendTail_reads_past_end :
    sendTailExtraLow (fun i => if i == 0 then 0x08 else 0x00) 1 = true ∧
    sendTailExtraLowClaimed (fun i => if i == 0 then 0x08 else 0x00) 1 = false := by
  refine ⟨rfl, rfl⟩

/-- C6: the deadline does advance by exactly one bit period (2 × 488 µs) and
the delay equals the residual while the deadline lies ahead, but when the
current time has passed the deadline the code hands `delayMicroseconds` the
wrapped-around 32-bit value: the guard `txMicros - micros() < 0` compares an
unsigned difference with 0 and is never true, so at deadline 1000 and
current time 1001 the delay argument is 2^32 - 1 = 4294967295 µs, exactly
the wrapped value the claim says is never passed. -/
theorem manchester_timing_overdue_wraps :
    advanceTxMicros 0 = 976 ∧
    bitDelayMicros 2000 1500 = 500 ∧
    bitDelayMicros 1000 1001 = 4294967295 := by
  refine ⟨by decide, by decide, by decide⟩

/-- C8 counterexample: at exactly 1000 ms elapsed the claim requires a tick,
but the source condition `millis() - lastMillis > 1000` is strict: from
state {seconds 5, lastMillis 0, pending false} at now = 1000 the elapsed
time is exactly 1000 ms yet the state is unchanged. -/
theorem secondTick_at_exactly_1000_counterexample :
    sub32 1000 0 = 1000 ∧
    secondTick ⟨5, 0, false⟩ 1000 = ⟨5, 0, false⟩ := by
  refine ⟨by decide, by decide⟩

/-- C8 amended: the second-tick fires exactly when STRICTLY more than
1000 ms (in unsigned 32-bit difference) have elapsed since the last tick:
then seconds is incremented and the pending flag set; at 1000 ms or less
(including exactly 1000 ms) nothing changes. -/
theorem secondTick_strict (s : LoopState) (now : Nat) :
    (sub32 now s.lastMillis > 1000 →
      secondTick s now = ⟨(s.seconds + 1) % U32, now % U32, true⟩) ∧
    (sub32 now s.lastMillis ≤ 1000 → secondTick s now = s) := by
  unfold secondTick
  exact ⟨fun hgt => by rw [if_pos hgt], fun hle => by rw [if_neg (by omega)]⟩

/-- C8 witness: the amended tick law evaluated at 1001 ms elapsed (tick) and
at 900 ms elapsed (no tick). -/
theorem secondTick_strict_witness :
    secondTick ⟨5, 0, false⟩ 1001 = ⟨(5 + 1) % U32, 1001 % U32, true⟩ ∧
    secondTick ⟨5, 0, false⟩ 900 = ⟨5, 0, false⟩ :=
  ⟨(secondTick_strict ⟨5, 0, false⟩ 1001).1 (by decide),
   (secondTick_strict ⟨5, 0, false⟩ 900).2 (by decide)⟩

/-- C9: the test-mode reading-increment policy adds one tenth of a degree,
resetting to 19.0 °C (190 tenths) exactly when the incremented value
exceeds 45 °C (450 tenths), and adds 1 to the humidity, resetting to 30
exactly when the incremented value exceeds 95 (the hypothesis `h ≤ 254`
keeps the `uint8_t` increment from wrapping; reachable humidity values
stay at or below 95). -/
theorem incReadings_policy (t : Int) (h : Nat) (hh : h ≤ 254) :
    ((t + 1 > 450 → (incReadings t h).1 = 190) ∧
     (t + 1 ≤ 450 → (incReadings t h).1 = t + 1)) ∧
    ((h + 1 > 95 → (incReadings t h).2 = 30) ∧
     (h + 1 ≤ 95 → (incReadings t h).2 = h + 1)) := by
  have h1 : (incReadings t h).1 = if t + 1 > 450 then 190 else t + 1 := rfl
  have h2 : (incReadings t h).2 = if (h + 1) % 256 > 95 then 30 else (h + 1) % 256 := rfl
  rw [Nat.mod_eq_of_lt (by omega : h + 1 < 256)] at h2
  exact ⟨⟨fun hgt => by rw [h1, if_pos hgt], fun hle => by rw [h1, if_neg (by omega)]⟩,
    fun hgt => by rw [h2, if_pos hgt], fun hle => by rw [h2, if_neg (by omega)]⟩

/-- C9 witness: temperature 45.0 °C steps past 45 and resets to 19.0 °C, and
humidity 95 steps past 95 and resets to 30. -/
theorem incReadings_policy_witness :
    (incReadings 450 95).1 = 190 ∧ (incReadings 450 95).2 = 30 :=
  ⟨((incReadings_policy 450 95 (by decide)).1).1 (by decide),
   ((incReadings_policy 450 95 (by decide)).2).1 (by decide)⟩

set_option maxRecDepth 8000 in
theorem encodeByte_testBit_fin : ∀ x : Fin 256, encodeByte (x : Nat) =
    [(x : Nat).testBit 4, (x : Nat).testBit 5, (x : Nat).testBit 6, (x : Nat).testBit 7,
     (x : Nat).testBit 0, (x : Nat).testBit 1, (x : Nat).testBit 2, (x : Nat).testBit 3] := by
  decide

set_option maxRecDepth 8000 in
theorem map_decode_fin : ∀ x : Fin 256, (byteTransitions (x : Nat)).map decodeTransition =
    [(x : Nat).testBit 4, (x : Nat).testBit 5, (x : Nat).testBit 6, (x : Nat).testBit 7,
     (x : Nat).testBit 0, (x : Nat).testBit 1, (x : Nat).testBit 2, (x : Nat).testBit 3] := by
  decide

set_option maxRecDepth 8000 in
theorem bitsToByte_fin : ∀ x : Fin 256,
    bitsToByte ((x : Nat).testBit 4) ((x : Nat).testBit 5) ((x : Nat).testBit 6)
      ((x : Nat).testBit 7) ((x : Nat).testBit 0) ((x : Nat).testBit 1)
      ((x : Nat).testBit 2) ((x : Nat).testBit 3) = (x : Nat) := by
  decide

theorem map_decode_byteTransitions (b : Nat) (hb : b < 256) :
    (byteTransitions b).map decodeTransition =
      [b.testBit 4, b.testBit 5, b.testBit 6, b.testBit 7,
       b.testBit 0, b.testBit 1, b.testBit 2, b.testBit 3] :=
  map_decode_fin ⟨b, hb⟩

theorem bitsToByte_testBit (b : Nat) (hb : b < 256) :
    bitsToByte (b.testBit 4) (b.testBit 5) (b.testBit 6) (b.testBit 7)
      (b.testBit 0) (b.testBit 1) (b.testBit 2) (b.testBit 3) = b :=
  bitsToByte_fin ⟨b, hb⟩

/-- Decoding the transition stream of a transmitted byte sequence restores
the sequence, byte by byte. -/
theorem decode_transmit (bs : List Nat) (h : ∀ b ∈ bs, b < 256) :
    decodeTransitions (transmitTransitions bs) = bs := by
  induction bs with
  | nil => rfl
  | cons b rest ih =>
    have hb : b < 256 := h b (List.mem_cons_self b rest)
    have hrest : bitsToBytes (List.map decodeTransition (rest.flatMap byteTransitions))
        = rest := ih (fun x hx => h x (List.mem_cons_of_mem b hx))
    simp only [transmitTransitions, decodeTransitions, List.flatMap_cons, List.map_append]
    rw [map_decode_byteTransitions b hb]
    simp only [List.cons_append, List.nil_append, bitsToBytes]
    rw [bitsToByte_testBit b hb]
    simp only [List.append_eq, List.nil_append]
    rw [hrest]

/-- C7: `manchester_encode_v3` emits a byte's bits in the order 4, 5, 6, 7,
0, 1, 2, 3 (a 1 as an on-to-off, a 0 as an off-to-on transition), and
decoding the emitted transition sequence (on-to-off = 1, off-to-on = 0,
high nibble then low nibble per byte) reconstructs the original byte
sequence exactly. -/
theorem manchester_bit_order_roundtrip :
    (∀ b : Nat, b < 256 → encodeByte b =
      [b.testBit 4, b.testBit 5, b.testBit 6, b.testBit 7,
       b.testBit 0, b.testBit 1, b.testBit 2, b.testBit 3]) ∧
    (∀ bs : List Nat, (∀ b ∈ bs, b < 256) →
      decodeTransitions (transmitTransitions bs) = bs) :=
  ⟨fun b hb => encodeByte_testBit_fin ⟨b, hb⟩, fun bs hbs => decode_transmit bs hbs⟩

/-- C7 witness: the bit order evaluated at byte 0xA5 and the round trip
evaluated on the byte sequence FF A5 00 73. -/
theorem manchester_bit_order_roundtrip_witness :
    encodeByte 0xA5 =
      [(0xA5 : Nat).testBit 4, (0xA5 : Nat).testBit 5, (0xA5 : Nat).testBit 6,
       (0xA5 : Nat).testBit 7, (0xA5 : Nat).testBit 0, (0xA5 : Nat).testBit 1,
       (0xA5 : Nat).testBit 2, (0xA5 : Nat).testBit 3] ∧
    decodeTransitions (transmitTransitions [0xFF, 0xA5, 0x00, 0x73]) =
      [0xFF, 0xA5, 0x00, 0x73] :=
  ⟨manchester_bit_order_roundtrip.1 0xA5 (by decide),
   manchester_bit_order_roundtrip.2 [0xFF, 0xA5, 0x00, 0x73] (by decide)⟩

/-- C10: neither checksum reads outside its nibble window at the count 15
used by the sketch. Any two 13-byte buffers agreeing on the low nibble of
byte 3 and on bytes 4–10 get the same `oregon_checksum_v3`, and any two
agreeing on nibble positions 7–21 get the same `crc8_checksum_v3`; in
particular the preamble bytes 0–2 and the checksum bytes 11–12 influence
neither result. -/
theorem checksum_window_locality (p q : List Nat)
    (hp : p.length = 13) (hq : q.length = 13) :
    (loN (p.getD 3 0) = loN (q.getD 3 0) →
     (∀ i, 4 ≤ i → i ≤ 10 → p.getD i 0 = q.getD i 0) →
     oregon_checksum_v3 p 15 = oregon_checksum_v3 q 15) ∧
    ((∀ i, 7 ≤ i → i ≤ 21 → nibAt p i = nibAt q i) →
     crc8_checksum_v3 p 15 = crc8_checksum_v3 q 15) := by
  constructor
  · intro h3 hb
    have hr : List.range' 4 ((28 + 15 * 4) / 8 - 4) = [4, 5, 6, 7, 8, 9, 10] := rfl
    simp only [oregon_checksum_v3, hr, List.foldl_cons, List.foldl_nil]
    rw [if_neg (by decide), if_neg (by decide)]
    rw [h3, hb 4 (by omega) (by omega), hb 5 (by omega) (by omega), hb 6 (by omega) (by omega),
      hb 7 (by omega) (by omega), hb 8 (by omega) (by omega), hb 9 (by omega) (by omega),
      hb 10 (by omega) (by omega)]
  · intro hn
    have hr : List.range' 7 (15 + 1)
        = [7, 8, 9, 10, 11, 12, 13, 14, 15, 16, 17, 18, 19, 20, 21, 22] := rfl
    simp only [crc8_checksum_v3, hr, List.foldl_cons, List.foldl_nil]
    norm_num
    rw [hn 7 (by omega) (by omega), hn 8 (by omega) (by omega), hn 9 (by omega) (by omega),
      hn 10 (by omega) (by omega), hn 11 (by omega) (by omega), hn 12 (by omega) (by omega),
      hn 13 (by omega) (by omega), hn 14 (by omega) (by omega), hn 15 (by omega) (by omega),
      hn 16 (by omega) (by omega), hn 17 (by omega) (by omega), hn 18 (by omega) (by omega),
      hn 19 (by omega) (by omega), hn 20 (by omega) (by omega), hn 21 (by omega) (by omega)]

/-- C10 witness: the golden payload and a buffer with zeroed preamble, a
different high nibble of byte 3, and zeroed checksum bytes give the same
simple checksum and the same CRC-8. -/
theorem checksum_window_locality_witness :
    oregon_checksum_v3
        [0xFF, 0xFF, 0xFF, 0xAF, 0x82, 0x41, 0x00, 0x05, 0x10, 0x80, 0x20, 0xE2, 0x73] 15 =
      oregon_checksum_v3
        [0x00, 0x00, 0x00, 0x0F, 0x82, 0x41, 0x00, 0x05, 0x10, 0x80, 0x20, 0x00, 0x00] 15 ∧
    crc8_checksum_v3
        [0xFF, 0xFF, 0xFF, 0xAF, 0x82, 0x41, 0x00, 0x05, 0x10, 0x80, 0x20, 0xE2, 0x73] 15 =
      crc8_checksum_v3
        [0x00, 0x00, 0x00, 0x0F, 0x82, 0x41, 0x00, 0x05, 0x10, 0x80, 0x20, 0x00, 0x00] 15 :=
  ⟨(checksum_window_locality
      [0xFF, 0xFF, 0xFF, 0xAF, 0x82, 0x41, 0x00, 0x05, 0x10, 0x80, 0x20, 0xE2, 0x73]
      [0x00, 0x00, 0x00, 0x0F, 0x82, 0x41, 0x00, 0x05, 0x10, 0x80, 0x20, 0x00, 0x00]
      rfl rfl).1 (by decide)
      (fun i h1 h2 => by interval_cases i <;> rfl),
   (checksum_window_locality
      [0xFF, 0xFF, 0xFF, 0xAF, 0x82, 0x41, 0x00, 0x05, 0x10, 0x80, 0x20, 0xE2, 0x73]
      [0x00, 0x00, 0x00, 0x0F, 0x82, 0x41, 0x00, 0x05, 0x10, 0x80, 0x20, 0x00, 0x00]
      rfl rfl).2
      (fun i h1 h2 => by interval_cases i <;> rfl)⟩

end Thgn801
